import Mathlib

/-! Shallow embedding of `src/extract_clauses.py` (document structure recovery
engine): the line model, the noise filter, the heading detector, the clause
tree builder and the text reconstructor, together with theorems checking the
specification's claims about them.  Python floats are modelled as rationals,
Python strings as `List Char`, and the stateful clause arena as explicit
state passing.  Recursions that Python writes as `while` loops are given a
fuel argument that is always initialised large enough (the index strictly
increases at every step), so every definition evaluates by kernel reduction. -/

/-- Characters of a string literal, used to write `List Char` constants. -/
def strL (x : String) : List Char := x.data

/-- Whitespace test used by the embedding of Python `str.split` / `str.strip`. -/
def isWs (c : Char) : Bool := c.isWhitespace

/-- Python `str.strip()`: drop whitespace from both ends. -/
def stripWs (t : List Char) : List Char :=
  ((t.dropWhile isWs).reverse.dropWhile isWs).reverse

/-- Helper for `splitWs`, accumulating the current word in reverse. -/
def splitWsAux : List Char → List Char → List (List Char)
  | [], acc => if acc = [] then [] else [acc.reverse]
  | c :: rest, acc =>
    if isWs c then
      if acc = [] then splitWsAux rest [] else acc.reverse :: splitWsAux rest []
    else splitWsAux rest (c :: acc)

/-- Python `str.split()` with no separator: whitespace-delimited words. -/
def splitWs (t : List Char) : List (List Char) := splitWsAux t []

/-- Python `" ".join(parts)`. -/
def joinSpace : List (List Char) → List Char
  | [] => []
  | [p] => p
  | p :: q :: rest => p ++ ' ' :: joinSpace (q :: rest)

/-- Python `".".join(parts)`. -/
def joinDots : List (List Char) → List Char
  | [] => []
  | [p] => p
  | p :: q :: rest => p ++ '.' :: joinDots (q :: rest)

/-- Helper for `splitOnDot`, accumulating the current segment in reverse. -/
def splitOnDotAux : List Char → List Char → List (List Char)
  | [], acc => [acc.reverse]
  | c :: rest, acc =>
    if c = '.' then acc.reverse :: splitOnDotAux rest []
    else splitOnDotAux rest (c :: acc)

/-- Python `s.split(".")`: split at every dot, keeping empty segments. -/
def splitOnDot (t : List Char) : List (List Char) := splitOnDotAux t []

/-- Exact rational model of the Python floats (coordinates, font sizes and
ratios; every number the program handles is exactly representable).  The
numerator/denominator pair is not normalised; every `Frac` built below has a
positive denominator (integer literals have denominator 1, the bold ratio's
denominator is a positive count, and sums and differences multiply positive
denominators), which the cross-multiplication comparisons rely on. -/
structure Frac where
  num : Int
  den : Int
deriving DecidableEq, Repr

instance (n : Nat) : OfNat Frac n := ⟨⟨Int.ofNat n, 1⟩⟩

/-- Value-level comparison `a < b`, by cross multiplication. -/
def Frac.lt (a b : Frac) : Prop := a.num * b.den < b.num * a.den

/-- Value-level comparison `a ≤ b`, by cross multiplication. -/
def Frac.le (a b : Frac) : Prop := a.num * b.den ≤ b.num * a.den

/-- Value-level equality `a == b` of Python floats, by cross multiplication
(structural equality on `Frac` is finer and is never used to model the
program). -/
def Frac.eqv (a b : Frac) : Prop := a.num * b.den = b.num * a.den

instance : LT Frac := ⟨Frac.lt⟩

instance : LE Frac := ⟨Frac.le⟩

instance (a b : Frac) : Decidable (a < b) :=
  inferInstanceAs (Decidable (a.num * b.den < b.num * a.den))

instance (a b : Frac) : Decidable (a ≤ b) :=
  inferInstanceAs (Decidable (a.num * b.den ≤ b.num * a.den))

instance (a b : Frac) : Decidable (Frac.eqv a b) :=
  inferInstanceAs (Decidable (a.num * b.den = b.num * a.den))

/-- Float addition. -/
def Frac.add (a b : Frac) : Frac := ⟨a.num * b.den + b.num * a.den, a.den * b.den⟩

/-- Float subtraction. -/
def Frac.sub (a b : Frac) : Frac := ⟨a.num * b.den - b.num * a.den, a.den * b.den⟩

instance : Add Frac := ⟨Frac.add⟩

instance : Sub Frac := ⟨Frac.sub⟩

/-- Python `max` on two floats (keeps the current value on ties, which is
indistinguishable at value level). -/
def Frac.fmax (a b : Frac) : Frac := if a ≤ b then b else a

/-- The constant `1.5` (the fragment-merge gap threshold). -/
def onePointFive : Frac := ⟨3, 2⟩

/-- The constant `0.5` (the bold-ratio threshold). -/
def half : Frac := ⟨1, 2⟩

/-- One run of text with position and font metadata (`TextChunk` in the source). -/
structure TextChunk where
  page : Nat
  top : Frac
  left : Frac
  width : Frac
  text : List Char
  fontSize : Frac
  isBold : Bool
deriving DecidableEq, Repr

/-- A reading-order line of chunks (`Line` in the source). -/
structure Line where
  page : Nat
  top : Frac
  chunks : List TextChunk
deriving DecidableEq, Repr

/-- Ordering of chunks by horizontal position, used by `Line.sort_chunks`.
Python `list.sort` is a stable sort, so any stable sort (here insertion sort)
produces the same list. -/
def chunkLe (a b : TextChunk) : Prop := a.left ≤ b.left

instance : DecidableRel chunkLe := fun a b => inferInstanceAs (Decidable (a.left ≤ b.left))

/-- Embedding of `Line.sort_chunks`: chunks ordered by their left coordinate. -/
def sortChunks (l : Line) : List TextChunk := List.insertionSort chunkLe l.chunks

/-- Loop of `Line.text`: concatenate chunk texts left to right, inserting a
single space whenever the horizontal gap to the previous chunk exceeds 1.5. -/
def chunksTextGo : List TextChunk → Option Frac → List Char
  | [], _ => []
  | c :: rest, lastRight =>
    if c.text = [] then chunksTextGo rest lastRight
    else
      (match lastRight with
       | some r => if onePointFive < c.left - r then [' '] else []
       | none => []) ++ c.text ++ chunksTextGo rest (some (c.left + c.width))

/-- Embedding of `Line.text`. -/
def lineText (l : Line) : List Char := chunksTextGo (sortChunks l) none

/-- Embedding of `Line.cleaned_text`: whitespace collapsed to single spaces and trimmed. -/
def cleanedText (l : Line) : List Char := joinSpace (splitWs (lineText l))

/-- Embedding of `Line.max_font_size`: maximum font size over chunks, 0 for no chunks. -/
def maxFontSize (l : Line) : Frac := l.chunks.foldr (fun c m => Frac.fmax c.fontSize m) 0

/-- Trimmed-character count of one chunk. -/
def chunkWeight (c : TextChunk) : Nat := (stripWs c.text).length

/-- Embedding of `Line.bold_ratio`: trimmed characters of bold chunks over all trimmed
characters, 0 when there is no text. -/
def boldRatio (l : Line) : Frac :=
  let total := ((l.chunks.filter (fun c => decide (stripWs c.text ≠ []))).map chunkWeight).sum
  if total = 0 then 0
  else
    let bold :=
      ((l.chunks.filter (fun c => c.isBold && decide (stripWs c.text ≠ []))).map chunkWeight).sum
    ⟨Int.ofNat bold, Int.ofNat total⟩

/-- A detected heading (`Heading` in the source). -/
structure Heading where
  identifier : List Char
  title : List Char
  line_index : Nat
  line_count : Nat
deriving DecidableEq, Repr

/-- A clause node (`Clause` in the source). -/
structure Clause where
  identifier : List Char
  title : List Char
  bodyLines : List (List Char)
  children : List Clause

/-- Helper for `parseDotGroups`; the fuel dominates the list length, and the
list shrinks by at least one character per step, so the fuel never runs out. -/
def parseDotGroupsAux : Nat → List Char → List Char × List Char
  | 0, t => ([], t)
  | _ + 1, [] => ([], [])
  | fuel + 1, c :: rest =>
    if c = '.' then
      let ds := rest.takeWhile Char.isDigit
      if ds = [] then ([], c :: rest)
      else
        let pr := parseDotGroupsAux fuel (rest.dropWhile Char.isDigit)
        ('.' :: (ds ++ pr.1), pr.2)
    else ([], c :: rest)

/-- Greedy parse of `(?:\.\d+)*`: consume as many dot-then-digits groups as
possible, returning the consumed characters and the remainder. -/
def parseDotGroups (t : List Char) : List Char × List Char :=
  parseDotGroupsAux t.length t

/-- Full-match semantics of `HEADING_RE = ^(\d+(?:\.\d+)*)(?:\s+(.*\S))?$` on a
string without newlines inside the remainder: returns the dotted-numeric
identifier (group 1) and the remainder (group 2, empty when absent).  The
greedy parse is exact here: a shorter group 1 leaves a digit or a dot as the
next character, on which neither `\s+` nor `$` can succeed. -/
def headingMatch (t : List Char) : Option (List Char × List Char) :=
  let ds := t.takeWhile Char.isDigit
  if ds = [] then none
  else
    let pr := parseDotGroups (t.dropWhile Char.isDigit)
    let ident := ds ++ pr.1
    if pr.2 = [] then some (ident, [])
    else
      let rest := pr.2.dropWhile isWs
      if (pr.2.head?.map isWs = some true) ∧ rest ≠ [] ∧
          (rest.getLast?.map isWs = some false) ∧ '\n' ∉ rest
      then some (ident, rest)
      else none

/-- Python substring test `pat in t`. -/
def containsSub (pat : List Char) : List Char → Bool
  | [] => decide (pat = [])
  | c :: rest => List.isPrefixOf pat (c :: rest) || containsSub pat rest

/-- The literal `"..."`. -/
def dots3 : List Char := strL ("...")

/-- The literal `"--"` followed by three backticks, tested as a substring. -/
def ddbbb : List Char := '-' :: '-' :: List.replicate 3 (Char.ofNat 96)

/-- The nine case-insensitive boilerplate prefixes of `SKIP_PATTERNS`. -/
def skipPrefixes : List (List Char) :=
  [strL ("copyright british standards institution"),
   strL ("provided by accuris"),
   strL ("licensee="),
   strL ("not for resale"),
   strL ("no reproduction or networking permitted"),
   strL ("bs en "),
   strL ("iec 61513"),
   strL ("61513"),
   strL ("raising standards worldwide")]

/-- ASCII lowering, the effect of `re.IGNORECASE` on these ASCII patterns. -/
def lowerList (t : List Char) : List Char := t.map Char.toLower

/-- Case-insensitive anchored prefix match of one `SKIP_PATTERNS` entry. -/
def matchesPrefixCI (pat t : List Char) : Bool := List.isPrefixOf pat (lowerList t)

/-- The en dash used by the page-number banner pattern. -/
def enDash : Char := Char.ofNat 0x2013

/-- The pattern `^–\s*\d+\s*–` (en dashes around a page number). -/
def dashNumDash : List Char → Bool
  | [] => false
  | c :: rest =>
    decide (c = enDash) &&
      (let r1 := rest.dropWhile isWs
       let ds := r1.takeWhile Char.isDigit
       decide (ds ≠ []) &&
         decide (((r1.dropWhile Char.isDigit).dropWhile isWs).head? = some enDash))

/-- Membership in the separator character class: backtick, apostrophe, comma,
dot or dash. -/
def sepChar (c : Char) : Bool :=
  c == Char.ofNat 96 || c == Char.ofNat 39 || c == ',' || c == '.' || c == '-'

/-- The pattern matching `"--"` followed by five or more separator-class
characters, anchored at the start of the text. -/
def dashSepRun : List Char → Bool
  | '-' :: '-' :: rest => decide (5 ≤ (rest.takeWhile sepChar).length)
  | _ => false

/-- Disjunction of all eleven `SKIP_PATTERNS`, each anchored at the start. -/
def skipPatternsMatch (t : List Char) : Bool :=
  skipPrefixes.any (fun p => matchesPrefixCI p t) || dashNumDash t || dashSepRun t

/-- Test whether the last whitespace-separated token is all digits, the
embedding of `stripped.split()[-1].isdigit()`. -/
def lastTokenDigits (t : List Char) : Bool :=
  match (splitWs t).getLast? with
  | some tok => decide (tok ≠ []) && tok.all Char.isDigit
  | none => false

/-- Embedding of `should_skip_line` from the source. -/
def should_skip_line (text : List Char) : Bool :=
  let stripped := stripWs text
  if stripped = [] then false
  else if containsSub dots3 stripped && lastTokenDigits stripped then true
  else if containsSub ddbbb stripped then true
  else if skipPatternsMatch stripped then true
  else false

/-- First-character test of `text.startswith(("•", "–", "-", "(", ")"))`. -/
def startsWithBullet (t : List Char) : Bool :=
  match t.head? with
  | some c => c == '•' || c == enDash || c == '-' || c == '(' || c == ')'
  | none => false

/-- The punctuation class `. , ; : ! ?`. -/
def punctChars : List Char := ['.', ',', ';', ':', '!', '?']

/-- Embedding of `looks_like_fragment` from the source. -/
def looks_like_fragment (line : Line) (text : List Char) : Bool :=
  if text = [] then false
  else if 0 < boldRatio line then false
  else if startsWithBullet text then false
  else if text.any (fun c => punctChars.contains c) then false
  else
    let words := splitWs text
    if words.length ≤ 1 then false else decide (words.length ≤ 6)

/-- The per-line keep verdict of the noise filter (`should_skip_line` together
with `looks_like_fragment`, both applied to the line's cleaned text). -/
def noiseKeep (line : Line) : Bool :=
  !(should_skip_line (cleanedText line)) && !(looks_like_fragment line (cleanedText line))

/-- One application of the noise filter to a set of lines. -/
def noiseFilter (lines : List Line) : List Line := lines.filter noiseKeep

/-- Inner lookahead loop of `find_headings`, started at line `j` when the
candidate's remainder was empty: consumes blank lines and prominent
non-heading lines, accumulating the latter as title parts, and stops at the
first non-prominent line or heading-pattern line.  Returns the number of
extra lines consumed and the collected title parts.  The fuel is at least the
number of remaining lines, and `j` advances with every unit of fuel spent, so
the fuel never runs out. -/
def lookaheadAux (lines : List Line) : Nat → Nat → Nat × List (List Char)
  | 0, _ => (0, [])
  | fuel + 1, j =>
    match lines[j]? with
    | none => (0, [])
    | some cand =>
      if cleanedText cand = [] then
        ((lookaheadAux lines fuel (j + 1)).1 + 1, (lookaheadAux lines fuel (j + 1)).2)
      else if (14 : Frac) ≤ maxFontSize cand ∧ half ≤ boldRatio cand then
        if (headingMatch (cleanedText cand)).isSome then (0, [])
        else
          ((lookaheadAux lines fuel (j + 1)).1 + 1,
           cleanedText cand :: (lookaheadAux lines fuel (j + 1)).2)
      else (0, [])

/-- One iteration of the scanning loop of `find_headings` at line index `i`:
returns the heading emitted there (if any) and the number of lines consumed
(always at least 1). -/
def scanStep (lines : List Line) (i : Nat) : Option Heading × Nat :=
  match lines[i]? with
  | none => (none, 1)
  | some line =>
    if cleanedText line = [] then (none, 1)
    else
      match headingMatch (cleanedText line) with
      | none => (none, 1)
      | some (ident, rem) =>
        if maxFontSize line < 14 ∨ boldRatio line < half then (none, 1)
        else
          if stripWs rem = [] then
            if stripWs (joinSpace (lookaheadAux lines (lines.length - (i + 1)) (i + 1)).2) = [] ∧
                '.' ∉ ident then
              (none, 1 + (lookaheadAux lines (lines.length - (i + 1)) (i + 1)).1)
            else
              (some ⟨ident,
                     stripWs (joinSpace (lookaheadAux lines (lines.length - (i + 1)) (i + 1)).2),
                     i, 1 + (lookaheadAux lines (lines.length - (i + 1)) (i + 1)).1⟩,
               1 + (lookaheadAux lines (lines.length - (i + 1)) (i + 1)).1)
          else (some ⟨ident, stripWs rem, i, 1⟩, 1)

/-- The scanning loop of `find_headings`; the fuel always dominates
`lines.length - i` and each step consumes at least one line, so the loop is
never cut short. -/
def findHeadingsAux (lines : List Line) : Nat → Nat → List Heading
  | 0, _ => []
  | fuel + 1, i =>
    match lines[i]? with
    | none => []
    | some _ =>
      match scanStep lines i with
      | (none, c) => findHeadingsAux lines fuel (i + c)
      | (some h, c) => h :: findHeadingsAux lines fuel (i + c)

/-- Embedding of `find_headings` from the source. -/
def find_headings (lines : List Line) : List Heading :=
  findHeadingsAux lines lines.length 0

/-- Value of the Python expression `prev_top or line.top`: `prev_top` when it
is set and nonzero (`None` and `0.0` are both falsy), the fallback otherwise. -/
def pyOr (prevTop : Option Frac) (fallback : Frac) : Frac :=
  match prevTop with
  | some t => if Frac.eqv t 0 then fallback else t
  | none => fallback

/-- One iteration of the body-population loop of `build_clauses`: state is
(previous kept line's page, previous kept line's top, body lines so far). -/
def bodyStep (st : Option Nat × Option Frac × List (List Char)) (line : Line) :
    Option Nat × Option Frac × List (List Char) :=
  match st with
  | (prevPage, prevTop, acc) =>
    let text := cleanedText line
    if should_skip_line text then (prevPage, prevTop, acc)
    else if (headingMatch text).isSome then (prevPage, prevTop, acc)
    else if looks_like_fragment line text then (prevPage, prevTop, acc)
    else
      let acc1 :=
        match prevPage with
        | some pp =>
          if line.page ≠ pp ∨ (18 : Frac) < line.top - pyOr prevTop line.top then acc ++ [[]]
          else acc
        | none => acc
      let acc2 := if text = [] then acc1 ++ [[]] else acc1 ++ [text]
      (some line.page, some line.top, acc2)

/-- Body lines accumulated over a slice of the line stream. -/
def bodyScan (ls : List Line) : List (List Char) :=
  ((ls.foldl bodyStep (none, none, [])).2).2

/-- Arena record for one clause while the tree is being built: the Python
`Clause` object before its children are materialised, with children kept as
identifiers (the object graph uses shared mutable references; the arena and a
final materialisation step give the same tree). -/
structure ClauseRec where
  title : List Char
  bodyLines : List (List Char)
  childIds : List (List Char)
deriving DecidableEq, Repr

/-- State of the clause-building pass: `store` is `clause_by_id` in insertion
order, `roots` the identifiers appended to the top-level `clauses` list. -/
structure BuildState where
  store : List (List Char × ClauseRec)
  roots : List (List Char)
deriving DecidableEq, Repr

/-- Lookup in the clause arena, Python `clause_by_id.get(...)` (keys are
unique by construction, the first match decides). -/
def lookupStore : List (List Char × ClauseRec) → List Char → Option ClauseRec
  | [], _ => none
  | (ek, ev) :: es, k => if k = ek then some ev else lookupStore es k

/-- Rewrite the record stored under one identifier, the effect of mutating
the shared clause object held in `clause_by_id`. -/
def updateStore : List (List Char × ClauseRec) → List Char → (ClauseRec → ClauseRec) →
    List (List Char × ClauseRec)
  | [], _, _ => []
  | (ek, ev) :: es, p, f =>
    if ek = p then (ek, f ev) :: updateStore es p f
    else (ek, ev) :: updateStore es p f

/-- Parent identifier: the identifier with its last dot-segment removed,
Python `".".join(identifier.split(".")[:-1])`. -/
def parentIdOf (ident : List Char) : List Char :=
  joinDots (splitOnDot ident).dropLast

/-- The freshly created clause record for one heading: its title, the body
populated from the lines strictly between the heading's span and `endIdx`,
and no children yet. -/
def newEntry (lines : List Line) (h : Heading) (endIdx : Nat) : ClauseRec :=
  ⟨h.title,
   bodyScan ((lines.drop (h.line_index + h.line_count)).take
     (endIdx - (h.line_index + h.line_count))),
   []⟩

/-- Processing of one heading inside `build_clauses`: a duplicate identifier
is skipped entirely; otherwise the clause is created and registered, then
attached to its parent (the clause whose identifier drops the last
dot-segment) when that clause exists, else appended to the roots. -/
def processHeading (lines : List Line) (h : Heading) (endIdx : Nat) (st : BuildState) :
    BuildState :=
  if (lookupStore st.store h.identifier).isSome then st
  else if '.' ∈ h.identifier then
    if (lookupStore (st.store ++ [(h.identifier, newEntry lines h endIdx)])
          (parentIdOf h.identifier)).isSome then
      { store := updateStore (st.store ++ [(h.identifier, newEntry lines h endIdx)])
          (parentIdOf h.identifier)
          (fun r => { r with childIds := r.childIds ++ [h.identifier] }),
        roots := st.roots }
    else
      { store := st.store ++ [(h.identifier, newEntry lines h endIdx)],
        roots := st.roots ++ [h.identifier] }
  else
    { store := st.store ++ [(h.identifier, newEntry lines h endIdx)],
      roots := st.roots ++ [h.identifier] }

/-- Fold of `processHeading` over the heading list; each heading's body slice
ends at the next heading's start line (or at the end of input). -/
def processHeadings (lines : List Line) : List Heading → BuildState → BuildState
  | [], st => st
  | h :: rest, st =>
    let endIdx :=
      match rest with
      | [] => lines.length
      | h2 :: _ => h2.line_index
    processHeadings lines rest (processHeading lines h endIdx st)

/-- Numeric value of a digit string, Python `int(part)` for the dot-segments
of a detected identifier (which are always nonempty digit runs). -/
def digitsVal (t : List Char) : Nat :=
  t.foldl (fun n c => n * 10 + (c.toNat - 48)) 0

/-- Sort key of an identifier: its dot-segments as integers. -/
def idKey (ident : List Char) : List Nat := (splitOnDot ident).map digitsVal

/-- Lexicographic comparison of integer-segment sequences, the comparison
Python's `list.sort` performs on the keys. -/
def natListLe : List Nat → List Nat → Bool
  | [], _ => true
  | _ :: _, [] => false
  | a :: as, b :: bs => if a < b then true else if b < a then false else natListLe as bs

/-- Root ordering relation: identifiers compared by their numeric keys. -/
def rootLe (a b : List Char) : Prop := natListLe (idKey a) (idKey b) = true

instance : DecidableRel rootLe :=
  fun a b => inferInstanceAs (Decidable (natListLe (idKey a) (idKey b) = true))

/-- Materialise the clause tree from the arena; the fuel bounds the depth,
and a parent is always created strictly before its children, so a store of
`n` entries never nests deeper than `n` levels. -/
def materialize (store : List (List Char × ClauseRec)) : Nat → List Char → Clause
  | 0, id => ⟨id, [], [], []⟩
  | fuel + 1, id =>
    match lookupStore store id with
    | none => ⟨id, [], [], []⟩
    | some r => ⟨id, r.title, r.bodyLines, r.childIds.map (materialize store fuel)⟩

/-- Embedding of `build_clauses` from the source: detect headings, build the arena,
keep the well-formed roots (a filter that is in fact a tautology), sort them
by numeric identifier and materialise the forest.  Python's stable sort is
modelled by insertion sort, which is also stable. -/
def build_clauses (lines : List Line) : List Clause :=
  (List.insertionSort rootLe
    ((processHeadings lines (find_headings lines) ⟨[], []⟩).roots.filter
      (fun id => decide ('.' ∉ id) ||
        (List.count '.' id == (splitOnDot id).length - 1)))).map
    (materialize (processHeadings lines (find_headings lines) ⟨[], []⟩).store
      (processHeadings lines (find_headings lines) ⟨[], []⟩).store.length)

/-- Head-character lower-case test, Python `line[0].islower()`. -/
def isLowerHead (t : List Char) : Bool :=
  match t.head? with
  | some c => c.isLower
  | none => false

/-- One iteration of the paragraph fold of `Clause.text`: state is
(finished paragraphs, current buffer). -/
def textStep (st : List (List Char) × List (List Char)) (line : List Char) :
    List (List Char) × List (List Char) :=
  match st with
  | (paragraphs, buffer) =>
    if line = [] then
      if buffer = [] then (paragraphs, buffer)
      else (paragraphs ++ [stripWs (joinSpace buffer)], [])
    else
      match buffer.getLast? with
      | some lastE =>
        if lastE.getLast? = some '-' ∧ isLowerHead line = true then
          (paragraphs, buffer.dropLast ++ [lastE.dropLast ++ line])
        else (paragraphs, buffer ++ [line])
      | none => (paragraphs, buffer ++ [line])

/-- Python `"\n\n".join(parts)`. -/
def joinDoubleNl : List (List Char) → List Char
  | [] => []
  | [p] => p
  | p :: q :: rest => p ++ '\n' :: '\n' :: joinDoubleNl (q :: rest)

/-- Paragraph reconstruction over a body-line list, the body of `Clause.text`:
paragraphs separated by blank markers, joined with blank lines, empty
paragraphs dropped. -/
def clauseTextOf (bodyLines : List (List Char)) : List Char :=
  let pb := bodyLines.foldl textStep ([], [])
  let finalPs := if pb.2 = [] then pb.1 else pb.1 ++ [stripWs (joinSpace pb.2)]
  joinDoubleNl (finalPs.filter (fun p => decide (p ≠ [])))

/-- Embedding of `Clause.text` from the source. -/
def Clause.text (c : Clause) : List Char := clauseTextOf c.bodyLines

/-- Outcome of resolving the input path and running the external extraction
engine, the environment-dependent prefix of `extract_pdf_clauses`: the path
may be missing, the engine may refuse or fail to decode the document, or a
line stream is produced. -/
inductive ExtractionOutcome where
  | notFound
  | permissionDenied
  | malformedInput
  | ok (lines : List Line)

/-- Error kinds surfaced by `extract_pdf_clauses` (`FileNotFoundError`,
`PermissionError`, the two `ValueError`s, and the wrapped `PDFSyntaxError`). -/
inductive ExtractError where
  | notFound
  | permissionDenied
  | malformedInput
  | emptyExtraction
  | noStructureDetected
deriving DecidableEq, Repr

/-- Embedding of `extract_pdf_clauses` from the source, with the filesystem check and the
external extraction engine abstracted into an `ExtractionOutcome` argument:
errors propagate, an empty line stream raises `EmptyExtraction`, a line
stream yielding no clauses raises `NoStructureDetected`, and otherwise the
(necessarily nonempty) clause forest is returned. -/
def extract_pdf_clauses (outcome : ExtractionOutcome) : Except ExtractError (List Clause) :=
  match outcome with
  | .notFound => .error .notFound
  | .permissionDenied => .error .permissionDenied
  | .malformedInput => .error .malformedInput
  | .ok lines =>
    if lines = [] then .error .emptyExtraction
    else
      match build_clauses lines with
      | [] => .error .noStructureDetected
      | c :: cs => .ok (c :: cs)

/-- A line with a single chunk, as the extraction stage produces them. -/
def mkLine (page : Nat) (top left width : Frac) (txt : String) (fs : Frac) (bold : Bool) :
    Line :=
  { page := page, top := top,
    chunks := [{ page := page, top := top, left := left, width := width,
                 text := txt.data, fontSize := fs, isBold := bold }] }

/-- Separator characters named by claim C8: backtick, comma and dash. -/
def spec_isSepChar (c : Char) : Bool := c == Char.ofNat 96 || c == ',' || c == '-'

/-- Helper for `spec_hasSepRun5`; `run` counts the current separator run. -/
def spec_sepRunAux : List Char → Nat → Bool
  | [], run => decide (5 ≤ run)
  | c :: rest, run =>
    if spec_isSepChar c then spec_sepRunAux rest (run + 1)
    else decide (5 ≤ run) || spec_sepRunAux rest 0

/-- Claim C8's reading of the separator rule, written from the claim's own
words so it can be compared against `should_skip_line`: the text contains,
anywhere, a run of at least five backtick/comma/dash characters. -/
def spec_hasSepRun5 (t : List Char) : Bool := spec_sepRunAux t 0

/-- C1 demo: a detected heading line. -/
def c1line0 : Line := mkLine 1 0 0 50 ("1 Intro") 16 true

/-- C1 demo: a line that fully matches the heading pattern but is gated by
font size 12 (and bold ratio 0). -/
def c1mid : Line := mkLine 1 30 0 50 ("1.1 Gated text") 12 false

/-- C1 demo: the following detected heading line. -/
def c1line2 : Line := mkLine 1 60 0 50 ("2 Next") 16 true

/-- C1 demo input: a gated heading-like line between two detected headings. -/
def c1demo : List Line := [c1line0, c1mid, c1line2]

/-- C2 demo input: headings 3, 3.2 and 3.2.1 all detected. -/
def c2demoChain : List Line :=
  [mkLine 1 0 0 50 ("3 Alpha") 16 true,
   mkLine 1 30 0 50 ("3.2 Beta") 16 true,
   mkLine 1 60 0 50 ("3.2.1 Gamma") 16 true]

/-- C2 demo input: heading 3.2.1 whose parent 3.2 was never detected. -/
def c2demoOrphan : List Line :=
  [mkLine 1 0 0 50 ("3 Alpha") 16 true,
   mkLine 1 30 0 50 ("3.2.1 Gamma") 16 true]

/-- C3 demo input: roots discovered in the order 4.10, 4.2, 4.9. -/
def c3demo : List Line :=
  [mkLine 1 0 0 50 ("4.10 Gamma") 16 true,
   mkLine 1 30 0 50 ("4.2 Alpha") 16 true,
   mkLine 1 60 0 50 ("4.9 Beta") 16 true]

/-- C5 demo input: a dotted identifier whose title stays empty. -/
def c5demoA : List Line := [mkLine 1 0 0 50 ("4.1") 16 true]

/-- C5 demo input: a bare top-level number with no resolvable title followed
by a heading line. -/
def c5demoB : List Line :=
  [mkLine 1 0 0 50 ("7") 16 true, mkLine 1 30 0 50 ("4.1 Title") 16 true]

/-- C6 demo: first kept body line, at vertical position 0. -/
def c6badL1 : Line := mkLine 1 0 0 50 ("alpha beta.") 11 false

/-- C6 demo: second kept body line, same page, vertical position 100. -/
def c6badL2 : Line := mkLine 1 100 0 50 ("gamma delta.") 11 false

/-- C6 demo input: the previous kept line's top coordinate is exactly 0, so
the falsy-zero fallback of `prev_top or line.top` suppresses the gap break. -/
def c6demoBad : List Line := [mkLine 1 0 0 50 ("1 Title") 16 true, c6badL1, c6badL2]

/-- C6 demo: second kept body line of the nonzero-top variant. -/
def c6goodL2 : Line := mkLine 1 100 0 50 ("gamma delta.") 11 false

/-- C6 demo input: kept lines at tops 20 and 100 on one page, a gap above 18. -/
def c6demoGood : List Line :=
  [mkLine 1 0 0 50 ("1 Title") 16 true, mkLine 1 20 0 50 ("alpha beta.") 11 false, c6goodL2]

/-- C7 demo input: one plain prose line, which yields no headings. -/
def c7demoNoise : List Line := [mkLine 1 0 0 50 ("just some plain prose here.") 11 false]

/-- C8 demo input: a text containing the skipped separator substring. -/
def c8wText : List Char := strL ("ab ") ++ ddbbb ++ strL (" cd")

/-- C10 demo input: two heading lines. -/
def c10demo : List Line :=
  [mkLine 1 0 0 50 ("3 Alpha") 16 true, mkLine 1 30 0 50 ("3.2 Beta") 16 true]

/-- A failed float comparison flips, as for real numbers (denominators of the
fractions the program builds are positive). -/
theorem Frac.not_lt {a b : Frac} : ¬ a < b ↔ b ≤ a := Int.not_lt

/-- The lookahead consumes at most `fuel` extra lines. -/
theorem lookaheadAux_fst_le (lines : List Line) :
    ∀ fuel j, (lookaheadAux lines fuel j).1 ≤ fuel := by
  intro fuel
  induction fuel with
  | zero => intro j; simp [lookaheadAux]
  | succ fuel ih =>
    intro j
    unfold lookaheadAux
    cases hL : lines[j]? with
    | none => simp
    | some cand =>
      dsimp only
      split
      · have := ih (j + 1); dsimp only; omega
      · split
        · split
          · simp
          · have := ih (j + 1); dsimp only; omega
        · simp

/-- Every scan step consumes at least one line. -/
theorem scanStep_snd_pos (lines : List Line) (i : Nat) : 1 ≤ (scanStep lines i).2 := by
  unfold scanStep
  repeat' split
  all_goals dsimp only
  all_goals omega

/-- A scan step at a valid index never consumes past the end of the input. -/
theorem scanStep_snd_le (lines : List Line) (i : Nat) (hi : i < lines.length) :
    i + (scanStep lines i).2 ≤ lines.length := by
  have hla := lookaheadAux_fst_le lines (lines.length - (i + 1)) (i + 1)
  unfold scanStep
  repeat' split
  all_goals dsimp only
  all_goals omega

/-- Structure of an emitted heading: it is anchored at the scanned index, its
span is the consumed count, its line is prominent (font at least 14, bold
ratio at least one half) and matches the heading pattern with the heading's
identifier, and it has a nonempty title or a dotted identifier. -/
theorem scanStep_some (lines : List Line) (i : Nat) (h : Heading)
    (hs : (scanStep lines i).1 = some h) :
    h.line_index = i ∧ h.line_count = (scanStep lines i).2 ∧
    ∃ l, lines[i]? = some l ∧ (14 : Frac) ≤ maxFontSize l ∧ half ≤ boldRatio l ∧
      (∃ rem, headingMatch (cleanedText l) = some (h.identifier, rem)) ∧
      (h.title ≠ [] ∨ '.' ∈ h.identifier) := by
  unfold scanStep at hs ⊢
  cases hL : lines[i]? with
  | none => rw [hL] at hs; simp at hs
  | some line =>
    rw [hL] at hs
    dsimp only at hs ⊢
    by_cases hT : cleanedText line = []
    · rw [if_pos hT] at hs; simp at hs
    · rw [if_neg hT] at hs ⊢
      cases hM : headingMatch (cleanedText line) with
      | none => rw [hM] at hs; simp at hs
      | some pr =>
        obtain ⟨ident, rem⟩ := pr
        rw [hM] at hs
        dsimp only at hs ⊢
        by_cases hG : maxFontSize line < 14 ∨ boldRatio line < half
        · rw [if_pos hG] at hs; simp at hs
        · rw [if_neg hG] at hs ⊢
          have hFont : (14 : Frac) ≤ maxFontSize line :=
            Frac.not_lt.mp (fun hc => hG (Or.inl hc))
          have hBold : half ≤ boldRatio line :=
            Frac.not_lt.mp (fun hc => hG (Or.inr hc))
          by_cases hR : stripWs rem = []
          · rw [if_pos hR] at hs ⊢
            by_cases hE :
                stripWs (joinSpace
                  (lookaheadAux lines (lines.length - (i + 1)) (i + 1)).2) = [] ∧
                '.' ∉ ident
            · rw [if_pos hE] at hs; simp at hs
            · rw [if_neg hE] at hs ⊢
              dsimp only at hs ⊢
              obtain rfl := Option.some.inj hs
              refine ⟨rfl, rfl, line, rfl, hFont, hBold, ⟨rem, hM⟩, ?_⟩
              rcases not_and_or.mp hE with h1 | h2
              · exact Or.inl h1
              · exact Or.inr (not_not.mp h2)
          · rw [if_neg hR] at hs ⊢
            dsimp only at hs ⊢
            obtain rfl := Option.some.inj hs
            exact ⟨rfl, rfl, line, rfl, hFont, hBold, ⟨rem, hM⟩, Or.inl hR⟩

/-- Invariant of every heading the scanner emits from index `i` on: it lies
at or after `i`, spans at least one line, stays in bounds, and its anchor
line is prominent, matches the heading pattern with its identifier, and
carries a nonempty title or a dotted identifier. -/
theorem findHeadingsAux_mem (lines : List Line) :
    ∀ fuel i h, h ∈ findHeadingsAux lines fuel i →
      i ≤ h.line_index ∧ 1 ≤ h.line_count ∧ h.line_index + h.line_count ≤ lines.length ∧
      ∃ l, lines[h.line_index]? = some l ∧ (14 : Frac) ≤ maxFontSize l ∧
        half ≤ boldRatio l ∧
        (∃ rem, headingMatch (cleanedText l) = some (h.identifier, rem)) ∧
        (h.title ≠ [] ∨ '.' ∈ h.identifier) := by
  intro fuel
  induction fuel with
  | zero => intro i h hm; simp [findHeadingsAux] at hm
  | succ fuel ih =>
    intro i h hm
    unfold findHeadingsAux at hm
    cases hL : lines[i]? with
    | none => rw [hL] at hm; simp at hm
    | some line =>
      rw [hL] at hm
      cases hS : scanStep lines i with
      | mk o c =>
        rw [hS] at hm
        cases o with
        | none =>
          dsimp only at hm
          have hrec := ih (i + c) h hm
          exact ⟨le_trans (Nat.le_add_right i c) hrec.1, hrec.2⟩
        | some h0 =>
          dsimp only at hm
          rcases List.mem_cons.mp hm with rfl | hm'
          · have hi : i < lines.length := (List.getElem?_eq_some.mp hL).1
            have h1 := scanStep_some lines i h (by rw [hS])
            have h2 := scanStep_snd_le lines i hi
            have h3 := scanStep_snd_pos lines i
            rw [hS] at h1 h2 h3
            dsimp only at h1 h2 h3
            obtain ⟨hidx, hcnt, hrest⟩ := h1
            refine ⟨le_of_eq hidx.symm, ?_, ?_, ?_⟩
            · omega
            · omega
            · rw [hidx]; exact hrest
          · have hrec := ih (i + c) h hm'
            exact ⟨by omega, hrec.2⟩

/-- The headings the scanner emits have pairwise disjoint, ordered spans:
each heading ends at or before the next one starts. -/
theorem findHeadingsAux_chain (lines : List Line) :
    ∀ fuel i, List.Chain' (fun a b => a.line_index + a.line_count ≤ b.line_index)
      (findHeadingsAux lines fuel i) := by
  intro fuel
  induction fuel with
  | zero => intro i; simp [findHeadingsAux]
  | succ fuel ih =>
    intro i
    unfold findHeadingsAux
    cases hL : lines[i]? with
    | none => simp
    | some line =>
      cases hS : scanStep lines i with
      | mk o c =>
        cases o with
        | none => exact ih (i + c)
        | some h0 =>
          dsimp only
          rw [List.chain'_cons']
          refine ⟨?_, ih (i + c)⟩
          intro b hb
          have hbmem := List.mem_of_mem_head? hb
          have hbi := (findHeadingsAux_mem lines fuel (i + c) b hbmem).1
          have h1 := scanStep_some lines i h0 (by rw [hS])
          rw [hS] at h1
          dsimp only at h1
          omega

/-- A key found in the first part of an association list is found in the
whole list. -/
theorem lookupStore_append_some {l1 l2 : List (List Char × ClauseRec)} {k : List Char}
    {v : ClauseRec} (h : lookupStore l1 k = some v) : lookupStore (l1 ++ l2) k = some v := by
  induction l1 with
  | nil => simp [lookupStore] at h
  | cons e es ih =>
    obtain ⟨ek, ev⟩ := e
    by_cases hke : k = ek
    · simp only [List.cons_append, lookupStore, if_pos hke] at h ⊢; exact h
    · simp only [List.cons_append, lookupStore, if_neg hke] at h ⊢; exact ih h

/-- A key absent from the first part of an association list is looked up in
the second part. -/
theorem lookupStore_append_none {l1 l2 : List (List Char × ClauseRec)} {k : List Char}
    (h : lookupStore l1 k = none) : lookupStore (l1 ++ l2) k = lookupStore l2 k := by
  induction l1 with
  | nil => simp [lookupStore]
  | cons e es ih =>
    obtain ⟨ek, ev⟩ := e
    by_cases hke : k = ek
    · simp only [lookupStore, if_pos hke] at h; simp at h
    · simp only [List.cons_append, lookupStore, if_neg hke] at h ⊢; exact ih h

/-- Updating a stored identifier rewrites exactly its record. -/
theorem lookupStore_updateStore_eq {store : List (List Char × ClauseRec)} {p : List Char}
    {r : ClauseRec} (f : ClauseRec → ClauseRec) (h : lookupStore store p = some r) :
    lookupStore (updateStore store p f) p = some (f r) := by
  induction store with
  | nil => simp [lookupStore] at h
  | cons e es ih =>
    obtain ⟨ek, ev⟩ := e
    by_cases hke : p = ek
    · simp only [lookupStore, if_pos hke] at h
      obtain rfl := Option.some.inj h
      simp only [updateStore, if_pos hke.symm, lookupStore, if_pos hke]
    · simp only [lookupStore, if_neg hke] at h
      simp only [updateStore, lookupStore]
      by_cases hep : ek = p
      · simp only [if_pos hep, lookupStore, if_neg hke]
        exact ih h
      · simp only [if_neg hep, lookupStore, if_neg hke]
        exact ih h

/-- Updating one identifier leaves every other lookup unchanged. -/
theorem lookupStore_updateStore_ne {store : List (List Char × ClauseRec)} {p k : List Char}
    (f : ClauseRec → ClauseRec) (hk : k ≠ p) :
    lookupStore (updateStore store p f) k = lookupStore store k := by
  induction store with
  | nil => simp [updateStore]
  | cons e es ih =>
    obtain ⟨ek, ev⟩ := e
    by_cases hke : ek = p
    · subst hke
      simp only [updateStore, if_pos rfl, lookupStore, if_neg hk]
      exact ih
    · by_cases hkk : k = ek
      · simp only [updateStore, if_neg hke, lookupStore, if_pos hkk]
      · simp only [updateStore, if_neg hke, lookupStore, if_neg hkk]
        exact ih

/-- Splitting at dots never returns the empty list. -/
theorem splitOnDotAux_ne_nil : ∀ s acc, splitOnDotAux s acc ≠ [] := by
  intro s
  induction s with
  | nil => intro acc; simp [splitOnDotAux]
  | cons c rest ih =>
    intro acc
    by_cases hc : c = '.'
    · simp [splitOnDotAux, hc]
    · simp only [splitOnDotAux, if_neg hc]
      exact ih _

/-- Joining a list with a nonempty tail prepends the head and a dot. -/
theorem joinDots_cons (p : List Char) (l : List (List Char)) (h : l ≠ []) :
    joinDots (p :: l) = p ++ '.' :: joinDots l := by
  cases l with
  | nil => exact absurd rfl h
  | cons q rest => rfl

/-- Joining with dots undoes splitting at dots, up to the accumulator. -/
theorem joinDots_splitOnDotAux : ∀ s acc, joinDots (splitOnDotAux s acc) = acc.reverse ++ s := by
  intro s
  induction s with
  | nil => intro acc; simp [splitOnDotAux, joinDots]
  | cons c rest ih =>
    intro acc
    by_cases hc : c = '.'
    · subst hc
      simp only [splitOnDotAux, if_pos rfl, if_true]
      rw [joinDots_cons _ _ (splitOnDotAux_ne_nil rest []), ih []]
      simp
    · simp only [splitOnDotAux, if_neg hc]
      rw [ih (c :: acc)]
      simp

/-- Joining with dots undoes splitting at dots. -/
theorem joinDots_splitOnDot (s : List Char) : joinDots (splitOnDot s) = s := by
  simpa using joinDots_splitOnDotAux s []

/-- The number of dot-segments is the dot count plus one. -/
theorem splitOnDotAux_length : ∀ s acc,
    (splitOnDotAux s acc).length = List.count '.' s + 1 := by
  intro s
  induction s with
  | nil => intro acc; simp [splitOnDotAux]
  | cons c rest ih =>
    intro acc
    by_cases hc : c = '.'
    · subst hc
      simp only [splitOnDotAux, if_pos rfl, if_true, List.length_cons, ih []]
      simp [List.count_cons]
      try exact ih []
    · simp only [splitOnDotAux, if_neg hc, ih (c :: acc)]
      simp [List.count_cons, hc]

/-- Appending a final segment appends a dot and that segment. -/
theorem joinDots_concat (l : List (List Char)) (p : List Char) (h : l ≠ []) :
    joinDots (l ++ [p]) = joinDots l ++ '.' :: p := by
  induction l with
  | nil => exact absurd rfl h
  | cons q rest ih =>
    cases rest with
    | nil => rfl
    | cons r rs =>
      rw [List.cons_append, joinDots_cons q ((r :: rs) ++ [p]) (by simp),
          joinDots_cons q (r :: rs) (by simp), ih (by simp)]
      simp

/-- The parent identifier of a dotted identifier is strictly shorter. -/
theorem parentIdOf_length_lt {id : List Char} (h : '.' ∈ id) :
    (parentIdOf id).length < id.length := by
  have hne0 : splitOnDot id ≠ [] := splitOnDotAux_ne_nil id []
  have hcount : 0 < List.count '.' id := List.count_pos_iff.mpr h
  have hlen : 2 ≤ (splitOnDot id).length := by
    have hx := splitOnDotAux_length id []
    simp only [splitOnDot]
    omega
  have hne : (splitOnDot id).dropLast ≠ [] := by
    have hd := List.length_dropLast (splitOnDot id)
    intro hnil
    rw [hnil] at hd
    simp at hd
    omega
  have hid : id =
      joinDots (splitOnDot id).dropLast ++ '.' :: (splitOnDot id).getLast hne0 := by
    conv_lhs => rw [← joinDots_splitOnDot id]
    conv_lhs => rw [← List.dropLast_append_getLast hne0]
    exact joinDots_concat _ _ hne
  unfold parentIdOf
  conv_rhs => rw [hid]
  simp only [List.length_append, List.length_cons]
  omega

/-- The parent identifier differs from the identifier itself. -/
theorem parentIdOf_ne {id : List Char} (h : '.' ∈ id) : parentIdOf id ≠ id := by
  intro he
  have := parentIdOf_length_lt h
  rw [he] at this
  omega

/-- The numeric-key comparison is total. -/
theorem natListLe_total : ∀ x y : List Nat, natListLe x y = true ∨ natListLe y x = true := by
  intro x
  induction x with
  | nil => intro y; left; rfl
  | cons a as ih =>
    intro y
    cases y with
    | nil => right; rfl
    | cons b bs =>
      by_cases h1 : a < b
      · left; simp [natListLe, h1]
      · by_cases h2 : b < a
        · right; simp [natListLe, h2]
        · have hab : a = b := by omega
          subst hab
          rcases ih bs with h | h
          · left; simp [natListLe, h1, h]
          · right; simp [natListLe, h1, h]

/-- The numeric-key comparison is transitive. -/
theorem natListLe_trans : ∀ x y z : List Nat,
    natListLe x y = true → natListLe y z = true → natListLe x z = true := by
  intro x
  induction x with
  | nil => intro y z h1 h2; rfl
  | cons a as ih =>
    intro y z h1 h2
    cases y with
    | nil => simp [natListLe] at h1
    | cons b bs =>
      cases z with
      | nil => simp [natListLe] at h2
      | cons c cs =>
        simp only [natListLe] at h1 h2 ⊢
        by_cases hab : a < b
        · by_cases hbc : b < c
          · have hac : a < c := by omega
            simp [hac]
          · by_cases hcb : c < b
            · simp [hbc, hcb] at h2
            · have hbc2 : b = c := by omega
              subst hbc2
              simp [hab]
        · by_cases hba : b < a
          · simp [hab, hba] at h1
          · have hab2 : a = b := by omega
            subst hab2
            simp only [if_neg hab, if_neg hba] at h1
            by_cases hac : a < c
            · simp [hac]
            · by_cases hca : c < a
              · simp [hac, hca] at h2
              · simp only [if_neg hac, if_neg hca] at h2 ⊢
                exact ih bs cs h1 h2

/-- Materialisation preserves the identifier. -/
theorem materialize_identifier (store : List (List Char × ClauseRec)) :
    ∀ fuel id, (materialize store fuel id).identifier = id := by
  intro fuel id
  cases fuel with
  | zero => rfl
  | succ fuel =>
    unfold materialize
    cases lookupStore store id with
    | none => rfl
    | some r => rfl

/-- C9: the noise filter is stateless and idempotent: filtering the kept set
again keeps exactly the same lines, and membership in the kept set is decided
line by line by the pure verdict `noiseKeep` (so the verdict of a fixed line
is the same across repeated calls). -/
theorem c9_noise_idempotent :
    ∀ lines : List Line, noiseFilter (noiseFilter lines) = noiseFilter lines ∧
      ∀ l : Line, l ∈ noiseFilter lines ↔ l ∈ lines ∧ noiseKeep l = true := by
  intro lines
  constructor
  · unfold noiseFilter
    rw [List.filter_filter]
    simp
  · intro l
    unfold noiseFilter
    exact List.mem_filter

/-- C8 as stated is false: the text "a,,,,,b" is nonempty after trimming and
contains a run of five comma separator characters, yet `should_skip_line`
returns false (the code only tests the anchored pattern starting with two
dashes, and the literal dash-dash-backtick-backtick-backtick substring). -/
theorem c8_separator_counterexample :
    stripWs (strL ("a,,,,,b")) ≠ [] ∧ spec_hasSepRun5 (strL ("a,,,,,b")) = true ∧
    should_skip_line (strL ("a,,,,,b")) = false := by
  refine ⟨by decide, by decide, by decide⟩

/-- C8 amended: `should_skip_line` returns true for every text whose trimmed
form is nonempty and either contains the dash-dash-backtick-backtick-backtick
substring anywhere, or starts with two dashes followed by a run of at least
five separator-class characters. -/
theorem c8_separator_amended :
    ∀ text : List Char, stripWs text ≠ [] →
      (containsSub ddbbb (stripWs text) = true ∨ dashSepRun (stripWs text) = true) →
      should_skip_line text = true := by
  intro text hne hcase
  unfold should_skip_line
  rw [if_neg hne]
  by_cases h1 : (containsSub dots3 (stripWs text) && lastTokenDigits (stripWs text)) = true
  · rw [if_pos h1]
  · rw [if_neg h1]
    by_cases h2 : containsSub ddbbb (stripWs text) = true
    · rw [if_pos h2]
    · rw [if_neg h2]
      rcases hcase with h3 | h3
      · exact absurd h3 h2
      · have hp : skipPatternsMatch (stripWs text) = true := by
          unfold skipPatternsMatch
          rw [h3]
          simp
        rw [if_pos hp]

/-- Witness for C8's amended theorem at a concrete input. -/
theorem c8_separator_witness : should_skip_line c8wText = true :=
  c8_separator_amended c8wText (by decide) (Or.inl (by decide))

/-- C7: the extraction entry point either returns a nonempty clause forest or
fails: a missing path gives `NotFound`, an empty line stream gives
`EmptyExtraction`, a line stream with no built clause gives
`NoStructureDetected`, and a returned forest is never empty. -/
theorem c7_error_contract :
    (∀ (oc : ExtractionOutcome) (cs : List Clause),
        extract_pdf_clauses oc = .ok cs → cs ≠ []) ∧
    extract_pdf_clauses .notFound = .error .notFound ∧
    extract_pdf_clauses (.ok []) = .error .emptyExtraction ∧
    (∀ lines : List Line, lines ≠ [] → build_clauses lines = [] →
        extract_pdf_clauses (.ok lines) = .error .noStructureDetected) := by
  refine ⟨?_, rfl, rfl, ?_⟩
  · intro oc cs h
    cases oc with
    | notFound => simp [extract_pdf_clauses] at h
    | permissionDenied => simp [extract_pdf_clauses] at h
    | malformedInput => simp [extract_pdf_clauses] at h
    | ok lines =>
      unfold extract_pdf_clauses at h
      dsimp only at h
      by_cases hl : lines = []
      · rw [if_pos hl] at h; simp at h
      · rw [if_neg hl] at h
        cases hb : build_clauses lines with
        | nil => rw [hb] at h; simp at h
        | cons c cs2 =>
          rw [hb] at h
          dsimp only at h
          obtain rfl := Except.ok.inj h
          simp
  · intro lines hne hb
    unfold extract_pdf_clauses
    dsimp only
    rw [if_neg hne, hb]

/-- Witness for C7's theorem: a prose-only line stream raises
`NoStructureDetected`. -/
theorem c7_error_witness :
    extract_pdf_clauses (.ok c7demoNoise) = .error .noStructureDetected :=
  c7_error_contract.2.2.2 c7demoNoise (by decide) rfl

/-- C10: every detected heading spans at least one line and stays inside the
input, and consecutive headings have disjoint ordered spans, so the body
slices `build_clauses` scans between consecutive headings are in bounds and
pairwise disjoint. -/
theorem c10_span_invariants :
    ∀ lines : List Line,
      (∀ h ∈ find_headings lines, 1 ≤ h.line_count ∧
        h.line_index + h.line_count ≤ lines.length) ∧
      List.Chain' (fun a b => a.line_index + a.line_count ≤ b.line_index)
        (find_headings lines) := by
  intro lines
  constructor
  · intro h hm
    have hmem := findHeadingsAux_mem lines lines.length 0 h hm
    exact ⟨hmem.2.1, hmem.2.2.1⟩
  · exact findHeadingsAux_chain lines lines.length 0

/-- Witness for C10's theorem at a concrete heading of a concrete input. -/
theorem c10_span_witness :
    1 ≤ (⟨strL ("3"), strL ("Alpha"), 0, 1⟩ : Heading).line_count ∧
    (⟨strL ("3"), strL ("Alpha"), 0, 1⟩ : Heading).line_index +
      (⟨strL ("3"), strL ("Alpha"), 0, 1⟩ : Heading).line_count ≤ c10demo.length :=
  (c10_span_invariants c10demo).1 ⟨strL ("3"), strL ("Alpha"), 0, 1⟩ (by decide)

/-- C5: a heading candidate with a dot-free identifier and an empty title
after the lookahead is discarded (every emitted dot-free heading has a
nonempty title); a dotted candidate is emitted even with an empty title; and
after a discard the scan carries on with the following lines (the discarded
bare number contributes nothing, the next heading line is still found). -/
theorem c5_bare_number_discard :
    (∀ (lines : List Line) (h : Heading), h ∈ find_headings lines →
        '.' ∉ h.identifier → h.title ≠ []) ∧
    find_headings c5demoA = [⟨strL ("4.1"), [], 0, 1⟩] ∧
    find_headings c5demoB = [⟨strL ("4.1"), strL ("Title"), 1, 1⟩] := by
  refine ⟨?_, by decide, by decide⟩
  intro lines h hm hdot
  have hmem := findHeadingsAux_mem lines lines.length 0 h hm
  rcases hmem.2.2.2 with ⟨l, _, _, _, _, htd⟩
  rcases htd with ht | hd
  · exact ht
  · exact absurd hd hdot

/-- Witness for C5's theorem at a concrete heading of a concrete input. -/
theorem c5_bare_number_witness :
    (⟨strL ("3"), strL ("Alpha"), 0, 1⟩ : Heading).title ≠ [] :=
  c5_bare_number_discard.1 c2demoChain ⟨strL ("3"), strL ("Alpha"), 0, 1⟩
    (by decide) (by decide)

/-- C1 as stated is false: in `c1demo` the middle line fully matches the
heading pattern, is kept by the noise filter, and is gated by font size 12,
and it lies between the two detected headings (at line indices 0 and 2) —
yet the enclosing clause's body stays empty, because the body scan skips any
line that re-matches the heading pattern. -/
theorem c1_heading_gate_counterexample :
    (find_headings c1demo).map Heading.line_index = [0, 2] ∧
    should_skip_line (cleanedText c1mid) = false ∧
    looks_like_fragment c1mid (cleanedText c1mid) = false ∧
    (headingMatch (cleanedText c1mid)).isSome = true ∧
    maxFontSize c1mid < 14 ∧
    (build_clauses c1demo).map Clause.bodyLines = [[], []] := by
  refine ⟨by decide, by decide, by decide, by decide, by decide, by decide⟩

/-- C1 amended: a line whose font size is below 14 or bold ratio below one
half is never the anchor of an emitted heading; and between two headings any
line whose cleaned text matches the heading pattern is dropped by the body
scan (never appended to the enclosing clause's body lines), rather than being
handled as ordinary body text. -/
theorem c1_heading_gate_amended :
    (∀ (lines : List Line) (i : Nat) (l : Line), lines[i]? = some l →
        (maxFontSize l < 14 ∨ boldRatio l < half) →
        ∀ h ∈ find_headings lines, h.line_index ≠ i) ∧
    (∀ (pp : Option Nat) (pt : Option Frac) (acc : List (List Char)) (line : Line),
        (headingMatch (cleanedText line)).isSome = true →
        bodyStep (pp, pt, acc) line = (pp, pt, acc)) := by
  constructor
  · intro lines i l hL hgate h hm heq
    have hmem := findHeadingsAux_mem lines lines.length 0 h hm
    rcases hmem.2.2.2 with ⟨l2, hL2, hfont, hbold, _, _⟩
    rw [heq, hL] at hL2
    obtain rfl := Option.some.inj hL2
    rcases hgate with hg | hg
    · exact absurd hg (Frac.not_lt.mpr hfont)
    · exact absurd hg (Frac.not_lt.mpr hbold)
  · intro pp pt acc line hmatch
    unfold bodyStep
    dsimp only
    by_cases hskip : should_skip_line (cleanedText line) = true
    · rw [if_pos hskip]
    · rw [if_neg hskip, if_pos hmatch]

/-- Witness for C1's amended theorem at the concrete gated line. -/
theorem c1_heading_gate_witness :
    (⟨strL ("1"), strL ("Intro"), 0, 1⟩ : Heading).line_index ≠ 1 ∧
    bodyStep (some 1, some 0, []) c1mid = (some 1, some 0, []) :=
  ⟨c1_heading_gate_amended.1 c1demo 1 c1mid rfl (Or.inl (by decide))
      ⟨strL ("1"), strL ("Intro"), 0, 1⟩ (by decide),
   c1_heading_gate_amended.2 (some 1) (some 0) [] c1mid (by decide)⟩

/-- C4: when the buffer's last entry ends with a hyphen and the next
non-empty line starts lower-case, the hyphen is dropped and the line is
concatenated onto that entry; so the body lines "exam-" and "ple text"
reconstruct to "example text", while an upper-case continuation stays
unmerged. -/
theorem c4_dehyphenation :
    (∀ (paragraphs buffer : List (List Char)) (lastE line : List Char),
        lastE.getLast? = some '-' → isLowerHead line = true →
        textStep (paragraphs, buffer ++ [lastE]) line =
          (paragraphs, buffer ++ [lastE.dropLast ++ line])) ∧
    clauseTextOf [strL ("exam-"), strL ("ple text")] = strL ("example text") ∧
    clauseTextOf [strL ("Exam-"), strL ("PLE")] = strL ("Exam- PLE") := by
  refine ⟨?_, by decide, by decide⟩
  intro paragraphs buffer lastE line hdash hlow
  have hline : line ≠ [] := by
    intro hnil
    rw [hnil] at hlow
    simp [isLowerHead] at hlow
  unfold textStep
  dsimp only
  rw [if_neg hline, List.getLast?_concat]
  dsimp only
  rw [if_pos ⟨hdash, hlow⟩, List.dropLast_concat]

/-- Witness for C4's theorem at the concrete hyphenated pair. -/
theorem c4_dehyphenation_witness :
    textStep ([], [strL ("exam-")]) (strL ("ple text")) =
      ([], [(strL ("exam-")).dropLast ++ strL ("ple text")]) :=
  c4_dehyphenation.1 [] [] (strL ("exam-")) (strL ("ple text")) (by decide) (by decide)

/-- C6 as stated is false: in `c6demoBad` the two kept body lines share a
page and their vertical gap is 100, far above 18, but the earlier line's top
coordinate is exactly 0, so the falsy-float fallback in
`prev_top or line.top` computes a gap of 0: no paragraph-break marker is
inserted and the two lines reconstruct into a single paragraph. -/
theorem c6_gap_counterexample :
    c6badL1.page = c6badL2.page ∧ Frac.eqv c6badL1.top 0 ∧
    (18 : Frac) < c6badL2.top - c6badL1.top ∧
    noiseKeep c6badL1 = true ∧ noiseKeep c6badL2 = true ∧
    (build_clauses c6demoBad).map Clause.bodyLines =
      [[strL ("alpha beta."), strL ("gamma delta.")]] ∧
    (build_clauses c6demoBad).map Clause.text = [strL ("alpha beta. gamma delta.")] := by
  refine ⟨rfl, by decide, by decide, by decide, by decide, by decide, by decide⟩

/-- C6 amended: for a kept line after the first, an empty marker line is
appended before its text when the page changed, or when the page is the same,
the previous kept line's recorded top coordinate is nonzero, and the vertical
gap exceeds 18 (a recorded top of exactly 0 is falsy in the Python
`prev_top or line.top` and suppresses the gap break); consequently kept lines
with such a gap and a nonzero previous top reconstruct into two paragraphs. -/
theorem c6_gap_amended :
    (∀ (pp : Nat) (pt : Frac) (acc : List (List Char)) (line : Line),
        should_skip_line (cleanedText line) = false →
        headingMatch (cleanedText line) = none →
        looks_like_fragment line (cleanedText line) = false →
        (line.page ≠ pp ∨ (¬ Frac.eqv pt 0 ∧ (18 : Frac) < line.top - pt)) →
        bodyStep (some pp, some pt, acc) line =
          (some line.page, some line.top, (acc ++ [[]]) ++ [cleanedText line])) ∧
    (build_clauses c6demoGood).map Clause.bodyLines =
      [[strL ("alpha beta."), [], strL ("gamma delta.")]] ∧
    (build_clauses c6demoGood).map Clause.text =
      [strL ("alpha beta.\n\ngamma delta.")] := by
  refine ⟨?_, by decide, by decide⟩
  intro pp pt acc line hskip hmatch hfrag hcond
  unfold bodyStep
  dsimp only
  rw [if_neg (by simp [hskip]), if_neg (by simp [hmatch]), if_neg (by simp [hfrag])]
  have hcond2 : line.page ≠ pp ∨ (18 : Frac) < line.top - pyOr (some pt) line.top := by
    rcases hcond with hpage | ⟨hne, hgt⟩
    · exact Or.inl hpage
    · right
      unfold pyOr
      dsimp only
      rw [if_neg hne]
      exact hgt
  rw [if_pos hcond2]
  by_cases ht : cleanedText line = []
  · rw [if_pos ht, ht]
  · rw [if_neg ht]

/-- Witness for C6's amended theorem at a concrete kept line. -/
theorem c6_gap_witness :
    bodyStep (some 1, some 20, []) c6goodL2 =
      (some c6goodL2.page, some c6goodL2.top, ([] ++ [[]]) ++ [cleanedText c6goodL2]) :=
  c6_gap_amended.1 1 20 [] c6goodL2 (by decide) (by decide) (by decide)
    (Or.inr ⟨by decide, by decide⟩)

/-- C2: when a heading's dotted identifier is new, dropping its last
dot-segment names its parent: if a clause with exactly that identifier
exists, the new clause is appended to that parent's children and the roots
are unchanged; otherwise it is appended to the roots and every existing
record is untouched — in particular it is never attached to any clause other
than the exact parent identifier (such as a shorter prefix).  Concretely,
3.2.1 nests under 3.2 under 3 when all three are detected, and with 3.2
missing, 3.2.1 becomes a root and 3 keeps no children. -/
theorem c2_parent_attachment :
    (∀ (lines : List Line) (h : Heading) (endIdx : Nat) (st : BuildState),
      '.' ∈ h.identifier →
      lookupStore st.store h.identifier = none →
      ((∀ r : ClauseRec, lookupStore st.store (parentIdOf h.identifier) = some r →
          (processHeading lines h endIdx st).roots = st.roots ∧
          lookupStore (processHeading lines h endIdx st).store (parentIdOf h.identifier) =
            some ⟨r.title, r.bodyLines, r.childIds ++ [h.identifier]⟩ ∧
          (∀ (k : List Char) (r2 : ClauseRec), k ≠ parentIdOf h.identifier →
            lookupStore st.store k = some r2 →
            lookupStore (processHeading lines h endIdx st).store k = some r2)) ∧
       (lookupStore st.store (parentIdOf h.identifier) = none →
          (processHeading lines h endIdx st).roots = st.roots ++ [h.identifier] ∧
          (∀ (k : List Char) (r2 : ClauseRec), lookupStore st.store k = some r2 →
            lookupStore (processHeading lines h endIdx st).store k = some r2)))) ∧
    (build_clauses c2demoChain).map
        (fun c => (c.identifier, c.children.map
          (fun d => (d.identifier, d.children.map Clause.identifier)))) =
      [(strL ("3"), [(strL ("3.2"), [strL ("3.2.1")])])] ∧
    (build_clauses c2demoOrphan).map
        (fun c => (c.identifier, c.children.map Clause.identifier)) =
      [(strL ("3"), ([] : List (List Char))), (strL ("3.2.1"), [])] := by
  refine ⟨?_, by decide, by decide⟩
  intro lines h endIdx st hdot hnone
  constructor
  · intro r hr
    have hr1 : lookupStore (st.store ++ [(h.identifier, newEntry lines h endIdx)])
        (parentIdOf h.identifier) = some r := lookupStore_append_some hr
    unfold processHeading
    rw [if_neg (by simp [hnone]), if_pos hdot, if_pos (by simp [hr1])]
    refine ⟨rfl, ?_, ?_⟩
    · exact lookupStore_updateStore_eq _ hr1
    · intro k r2 hk hk2
      rw [lookupStore_updateStore_ne _ hk]
      exact lookupStore_append_some hk2
  · intro hpn
    have hp1 : lookupStore (st.store ++ [(h.identifier, newEntry lines h endIdx)])
        (parentIdOf h.identifier) = none := by
      rw [lookupStore_append_none hpn]
      simp only [lookupStore, if_neg (parentIdOf_ne hdot)]
    unfold processHeading
    rw [if_neg (by simp [hnone]), if_pos hdot, if_neg (by simp [hp1])]
    exact ⟨rfl, fun k r2 hk2 => lookupStore_append_some hk2⟩

/-- Witness for C2's theorem: attaching 3.2.1 under an existing 3.2. -/
theorem c2_parent_witness :
    (processHeading [] ⟨strL ("3.2.1"), strL ("G"), 0, 1⟩ 0
        ⟨[(strL ("3.2"), ⟨strL ("B"), [], []⟩)], [strL ("3.2")]⟩).roots = [strL ("3.2")] ∧
    lookupStore (processHeading [] ⟨strL ("3.2.1"), strL ("G"), 0, 1⟩ 0
        ⟨[(strL ("3.2"), ⟨strL ("B"), [], []⟩)], [strL ("3.2")]⟩).store (strL ("3.2")) =
      some ⟨strL ("B"), [], [strL ("3.2.1")]⟩ := by
  have hh := (c2_parent_attachment.1 [] ⟨strL ("3.2.1"), strL ("G"), 0, 1⟩ 0
      ⟨[(strL ("3.2"), ⟨strL ("B"), [], []⟩)], [strL ("3.2")]⟩ (by decide) (by decide)).1
      ⟨strL ("B"), [], []⟩ (by decide)
  exact ⟨hh.1, hh.2.1⟩

/-- C3: the clause forest returned by `build_clauses` is sorted by identifier
compared as integer-segment sequences — numerically, not lexicographically:
4.2 and 4.9 order before 4.10 (while a string comparison would put 4.10
first), as the concrete run with discovery order 4.10, 4.2, 4.9 shows. -/
theorem c3_root_ordering :
    (∀ lines : List Line, (build_clauses lines).Pairwise
        (fun a b => natListLe (idKey a.identifier) (idKey b.identifier) = true)) ∧
    natListLe (idKey (strL ("4.2"))) (idKey (strL ("4.10"))) = true ∧
    natListLe (idKey (strL ("4.10"))) (idKey (strL ("4.2"))) = false ∧
    natListLe (idKey (strL ("4.9"))) (idKey (strL ("4.10"))) = true ∧
    (build_clauses c3demo).map Clause.identifier =
      [strL ("4.2"), strL ("4.9"), strL ("4.10")] := by
  refine ⟨?_, by decide, by decide, by decide, by decide⟩
  intro lines
  haveI : IsTotal (List Char) rootLe := ⟨fun a b => natListLe_total _ _⟩
  haveI : IsTrans (List Char) rootLe := ⟨fun a b c hab hbc => natListLe_trans _ _ _ hab hbc⟩
  unfold build_clauses
  rw [List.pairwise_map]
  have hs := List.sorted_insertionSort rootLe
    ((processHeadings lines (find_headings lines) ⟨[], []⟩).roots.filter
      (fun id => decide ('.' ∉ id) ||
        (List.count '.' id == (splitOnDot id).length - 1)))
  refine hs.imp ?_
  intro a b hab
  rw [materialize_identifier, materialize_identifier]
  exact hab
